import Mathlib

/-!
Verification of the styled-text layout and batched-glyph-rendering engine of
`rts/Rendering/Fonts/glFont.cpp` (Spring engine).  Byte strings are modelled
as `List Nat` (one entry per byte), float arithmetic as exact rationals, and
the external glyph atlas (`CFontTexture`, not part of the excerpt) as
parameter functions giving each glyph's advance, height, descender and the
kerning between two glyphs.  The `std::pow(x, 2.2)` gamma curve is modelled
as an abstract parameter function `pw`.
-/

/-- Color value: 4 components (r, g, b, a), modelled over the exact
rationals (the source uses `float4`). -/
structure Color4 where
  r : ℚ
  g : ℚ
  b : ℚ
  a : ℚ
deriving DecidableEq

/-- The fixed default text color `white(1.00f, 1.00f, 1.00f, 0.95f)`
(glFont.cpp line 42). -/
def white : Color4 := ⟨1, 1, 1, 19/20⟩

/-- The fixed dark outline reference color `darkOutline(0.05f, 0.05f, 0.05f,
0.95f)` (glFont.cpp line 43). -/
def darkOutline : Color4 := ⟨1/20, 1/20, 1/20, 19/20⟩

/-- The fixed light outline color `lightOutline(0.95f, 0.95f, 0.95f, 0.8f)`
(glFont.cpp line 44). -/
def lightOutline : Color4 := ⟨19/20, 19/20, 19/20, 4/5⟩

/-- Modelled from the spec: the reserved byte value opening a 4-byte
color-set sequence (§6 of the spec; the declaration
`CglFont::ColorCodeIndicator` lives in glFont.h, which is not part of the
excerpted sources).  The value 255 is an invalid UTF-8 byte, so at
codepoint granularity it decodes to itself. -/
def ColorCodeIndicator : Nat := 255

/-- Modelled from the spec: the reserved byte value of the 1-byte
color-reset sequence (§6 of the spec; `CglFont::ColorResetIndicator` is
declared in glFont.h, which is not part of the excerpted sources). -/
def ColorResetIndicator : Nat := 8

/-- Whether a byte is a UTF-8 continuation byte (`10xxxxxx`). -/
def contByte (b : Nat) : Prop := 128 ≤ b ∧ b < 192

instance (b : Nat) : Decidable (contByte b) := by
  unfold contByte; infer_instance

/-- Modelled from the spec: `utf8::GetNextChar` (System/, not part of the
excerpted sources).  Standard UTF-8 decoding of one codepoint from the
given byte suffix, returning the decoded scalar value and the number of
bytes consumed; malformed bytes degrade to "treat the single byte as
printable" (§4.1 failure policy), never failing. -/
def utf8Next : List Nat → Nat × Nat
  | [] => (0, 1)
  | b :: rest =>
    if b < 128 then (b, 1)
    else if 194 ≤ b ∧ b ≤ 223 then
      match rest with
      | c1 :: _ => if contByte c1 then ((b - 192) * 64 + (c1 - 128), 2) else (b, 1)
      | [] => (b, 1)
    else if 224 ≤ b ∧ b ≤ 239 then
      match rest with
      | c1 :: c2 :: _ =>
        if contByte c1 ∧ contByte c2 then
          ((b - 224) * 4096 + (c1 - 128) * 64 + (c2 - 128), 3)
        else (b, 1)
      | _ => (b, 1)
    else if 240 ≤ b ∧ b ≤ 244 then
      match rest with
      | c1 :: c2 :: c3 :: _ =>
        if contByte c1 ∧ contByte c2 ∧ contByte c3 then
          ((b - 240) * 262144 + (c1 - 128) * 4096 + (c2 - 128) * 64 + (c3 - 128), 4)
        else (b, 1)
      | _ => (b, 1)
    else (b, 1)

lemma utf8Next_snd_pos (l : List Nat) : 1 ≤ (utf8Next l).2 := by
  rcases l with _ | ⟨b, _ | ⟨c1, _ | ⟨c2, _ | ⟨c3, rest⟩⟩⟩⟩ <;>
    (simp only [utf8Next]; try split_ifs <;> simp) <;> simp

lemma utf8Next_snd_le (l : List Nat) : (utf8Next l).2 ≤ max 1 l.length := by
  rcases l with _ | ⟨b, _ | ⟨c1, _ | ⟨c2, _ | ⟨c3, rest⟩⟩⟩⟩ <;>
    (simp only [utf8Next]; try split_ifs <;> simp <;> omega) <;> simp

lemma utf8Next_snd_one (b : Nat) (rest : List Nat)
    (h : (utf8Next (b :: rest)).2 = 1) : (utf8Next (b :: rest)).1 = b := by
  rcases rest with _ | ⟨c1, _ | ⟨c2, _ | ⟨c3, rest⟩⟩⟩ <;>
    (simp only [utf8Next] at h ⊢; split_ifs at h ⊢ <;> simp_all)

/-- `SkipColorCodes` (glFont.cpp lines 138-146), in suffix form: starting
at a byte position, repeatedly skip 4-byte color-code sequences as long as
the current byte is the indicator; the `std::min(size, idx)` clamp of the
source corresponds to `List.drop` clamping at the end of the list. -/
def SkipColorCodes : List Nat → List Nat
  | [] => []
  | b :: rest =>
    if b = ColorCodeIndicator then SkipColorCodes (rest.drop 3) else b :: rest
termination_by l => l.length
decreasing_by
  simp only [List.length_drop, List.length_cons]
  omega

lemma skipColorCodes_length_le (l : List Nat) :
    (SkipColorCodes l).length ≤ l.length := by
  induction l using SkipColorCodes.induct with
  | case1 => simp [SkipColorCodes]
  | case2 rest ih =>
    rw [SkipColorCodes, if_pos rfl]
    simp only [List.length_drop] at ih
    simp only [List.length_cons]
    omega
  | case3 b rest h =>
    rw [SkipColorCodes, if_neg h]

lemma skipColorCodes_cci_length_lt (rest : List Nat) :
    (SkipColorCodes (ColorCodeIndicator :: rest)).length < rest.length + 1 := by
  rw [SkipColorCodes, if_pos rfl]
  have := skipColorCodes_length_le (rest.drop 3)
  simp only [List.length_drop] at this
  omega

lemma utf8Next_cci_skip_lt (b : Nat) (rest : List Nat)
    (h : (utf8Next (b :: rest)).1 = ColorCodeIndicator) :
    (SkipColorCodes ((b :: rest).drop ((utf8Next (b :: rest)).2 - 1))).length
      < rest.length + 1 := by
  rcases eq_or_lt_of_le (utf8Next_snd_pos (b :: rest)) with h1 | h1
  · have hb : b = ColorCodeIndicator := by
      rw [← utf8Next_snd_one b rest h1.symm, h]
    rw [← h1]
    simpa [hb] using skipColorCodes_cci_length_lt rest
  · have h2 := skipColorCodes_length_le ((b :: rest).drop ((utf8Next (b :: rest)).2 - 1))
    simp only [List.length_drop, List.length_cons] at h2
    omega

/-- Result of one `SkipColorCodesAndNewLines` call: final cursor, current
color, whether a color change was signalled, number of line breaks skipped,
and the return value of the function (`true` iff the string end was
reached). -/
structure ScanResult where
  pos : Nat
  color : Color4
  colorChanged : Bool
  skippedLines : Nat
  atEnd : Bool
deriving DecidableEq

/-- The `while` loop of `SkipColorCodesAndNewLines` (glFont.cpp lines
149-192), with the mutable out-parameters made explicit.  A color-set
sequence updates the r, g, b components from the three bytes after the
indicator (divided by 255) only when the advanced cursor is still inside
the string; a reset restores `colorReset`; CR, LF and CR+LF each count one
skipped line; a printable byte stops the loop returning `false`. -/
def skipCCNLLoop (text : List Nat) (colorReset : Color4) (pos : Nat)
    (color : Color4) (colorChanged : Bool) (skippedLines : Nat) : ScanResult :=
  if pos < text.length then
    if text.getD pos 0 = ColorCodeIndicator then
      if pos + 4 < text.length then
        skipCCNLLoop text colorReset (pos + 4)
          ⟨(text.getD (pos + 4 - 3) 0 : ℚ) / 255,
           (text.getD (pos + 4 - 2) 0 : ℚ) / 255,
           (text.getD (pos + 4 - 1) 0 : ℚ) / 255, color.a⟩ true skippedLines
      else
        skipCCNLLoop text colorReset (pos + 4) color colorChanged skippedLines
    else if text.getD pos 0 = ColorResetIndicator then
      skipCCNLLoop text colorReset (pos + 1) colorReset true skippedLines
    else if text.getD pos 0 = 13 then
      skipCCNLLoop text colorReset
        (if pos + 1 < text.length ∧ text.getD (pos + 1) 0 = 10
          then pos + 2 else pos + 1)
        color colorChanged (skippedLines + 1)
    else if text.getD pos 0 = 10 then
      skipCCNLLoop text colorReset (pos + 1) color colorChanged (skippedLines + 1)
    else ⟨pos, color, colorChanged, skippedLines, false⟩
  else ⟨pos, color, colorChanged, skippedLines, true⟩
termination_by text.length - pos
decreasing_by
  · omega
  · omega
  · omega
  · split <;> omega
  · omega

/-- `SkipColorCodesAndNewLines` (glFont.cpp lines 149-192): initializes the
out-parameters `colorChanged := false` and `skippedLines := 0`, then runs
the scanning loop from `pos`. -/
def SkipColorCodesAndNewLines (text : List Nat) (pos : Nat)
    (color colorReset : Color4) : ScanResult :=
  skipCCNLLoop text colorReset pos color false 0

/-- `CglFont::StripColorCodes_` (glFont.cpp lines 205-219): copy every
byte except that a color-code indicator makes the loop jump over the
indicator and the three bytes after it. -/
def StripColorCodes_ : List Nat → List Nat
  | [] => []
  | b :: rest =>
    if b = ColorCodeIndicator then StripColorCodes_ (rest.drop 3)
    else b :: StripColorCodes_ rest
termination_by l => l.length
decreasing_by
  · simp only [List.length_drop, List.length_cons]; omega
  · simp

/-- The counting loop of `CglFont::GetTextNumLines_` (glFont.cpp lines
343-379): a color-code indicator resumes after the whole run of color
codes (`SkipColorCodes`), a reset byte is skipped, CR / LF / CR+LF each
increment the count once, anything else is skipped. -/
def numLinesLoop : List Nat → Nat → Nat
  | [], n => n
  | b :: rest, n =>
    if hcc : b = ColorCodeIndicator then
      numLinesLoop (SkipColorCodes (b :: rest)) n
    else if b = ColorResetIndicator then numLinesLoop rest n
    else if b = 13 then
      numLinesLoop (if rest.headD 0 = 10 then rest.drop 1 else rest) (n + 1)
    else if b = 10 then numLinesLoop rest (n + 1)
    else numLinesLoop rest n
termination_by l => l.length
decreasing_by
  · subst hcc; exact skipColorCodes_cci_length_lt rest
  · simp
  · split <;> simp [List.length_drop] <;> omega
  · simp
  · simp

/-- `CglFont::GetTextNumLines_` (glFont.cpp lines 343-379): 0 for the empty
string, otherwise 1 plus the number of line breaks counted by the loop. -/
def GetTextNumLines_ (text : List Nat) : Nat :=
  if text = [] then 0 else numLinesLoop text 1

/-- The loop of `CglFont::SplitIntoLines` (glFont.cpp lines 392-423), with
the deque of finished lines, the current line (`lines.back()` in the
source) and the color-code stack made explicit.  On a color-set with at
least 3 bytes after the indicator, the verbatim 4-byte sequence is pushed
on the stack and appended to the current line (otherwise the indicator
byte alone is consumed); on a reset, the stack is popped (no-op when
empty) and the reset byte appended; on CR / LF / CR+LF the current line is
closed and the loop `for (auto& color: colorCodeStack) lines.back() =
color;` re-initializes the new line by assignment from each stack entry in
turn; any other byte is appended to the current line. -/
def splitLoop : List Nat → List (List Nat) → List Nat → List (List Nat) →
    List (List Nat)
  | [], lines, cur, _ => lines ++ [cur]
  | b :: rest, lines, cur, stack =>
    if b = ColorCodeIndicator then
      if 3 ≤ rest.length then
        splitLoop (rest.drop 3) lines (cur ++ b :: rest.take 3)
          (stack ++ [b :: rest.take 3])
      else splitLoop rest lines cur stack
    else if b = ColorResetIndicator then
      splitLoop rest lines (cur ++ [b]) stack.dropLast
    else if b = 13 then
      splitLoop (if rest.headD 0 = 10 then rest.drop 1 else rest)
        (lines ++ [cur]) (stack.foldl (fun _ color => color) []) stack
    else if b = 10 then
      splitLoop rest (lines ++ [cur]) (stack.foldl (fun _ color => color) []) stack
    else splitLoop rest lines (cur ++ [b]) stack
termination_by l => l.length
decreasing_by
  · simp only [List.length_drop, List.length_cons]; omega
  · simp
  · simp
  · split <;> simp [List.length_drop] <;> omega
  · simp
  · simp

/-- `CglFont::SplitIntoLines` (glFont.cpp lines 382-426): empty input gives
no lines; otherwise start with one empty line and run the splitting
loop. -/
def SplitIntoLines (text : List Nat) : List (List Nat) :=
  if text = [] then [] else splitLoop text [] [] []

/-- The measuring loop of `CglFont::GetTextWidth_` (glFont.cpp lines
242-279) followed by the final flush (lines 281-284).  `adv c` models
`GetGlyph(c).advance` and `kern p c` models
`GetKerning(GetGlyph(p), GetGlyph(c))` of the external glyph atlas.  The
state is the running line width `curw`, the maximum finished line width
`maxw` and the previous printable glyph on the current line (`prv`,
`nullptr` modelled as `none`).  A color-code indicator resumes after
`SkipColorCodes(text, idx - 1)`; a reset is a no-op; CR / LF / CR+LF flush
the pending advance of the previous glyph into `curw`, take the maximum
and reset `curw` and `prv`; a printable glyph adds the kerning against the
previous glyph and becomes the new previous glyph. -/
def widthLoop (adv : Nat → ℚ) (kern : Nat → Nat → ℚ) :
    List Nat → ℚ → ℚ → Option Nat → ℚ
  | [], curw, maxw, prv =>
    max (curw + (match prv with | some p => adv p | none => 0)) maxw
  | b :: rest, curw, maxw, prv =>
    if hcc : (utf8Next (b :: rest)).1 = ColorCodeIndicator then
      widthLoop adv kern
        (SkipColorCodes ((b :: rest).drop ((utf8Next (b :: rest)).2 - 1)))
        curw maxw prv
    else if (utf8Next (b :: rest)).1 = ColorResetIndicator then
      widthLoop adv kern ((b :: rest).drop (utf8Next (b :: rest)).2) curw maxw prv
    else if (utf8Next (b :: rest)).1 = 13 then
      widthLoop adv kern
        (if ((b :: rest).drop (utf8Next (b :: rest)).2).headD 0 = 10
          then ((b :: rest).drop (utf8Next (b :: rest)).2).drop 1
          else (b :: rest).drop (utf8Next (b :: rest)).2)
        0 (max (curw + (match prv with | some p => adv p | none => 0)) maxw) none
    else if (utf8Next (b :: rest)).1 = 10 then
      widthLoop adv kern ((b :: rest).drop (utf8Next (b :: rest)).2)
        0 (max (curw + (match prv with | some p => adv p | none => 0)) maxw) none
    else
      widthLoop adv kern ((b :: rest).drop (utf8Next (b :: rest)).2)
        (curw + (match prv with | some p => kern p (utf8Next (b :: rest)).1 | none => 0))
        maxw (some (utf8Next (b :: rest)).1)
termination_by l => l.length
decreasing_by
  · simpa using utf8Next_cci_skip_lt b rest hcc
  · have hk := utf8Next_snd_pos (b :: rest)
    simp only [List.length_drop, List.length_cons]; omega
  · have hk := utf8Next_snd_pos (b :: rest)
    split <;> (simp only [List.length_drop, List.length_cons]; omega)
  · have hk := utf8Next_snd_pos (b :: rest)
    simp only [List.length_drop, List.length_cons]; omega
  · have hk := utf8Next_snd_pos (b :: rest)
    simp only [List.length_drop, List.length_cons]; omega

/-- `CglFont::GetTextWidth_` (glFont.cpp lines 228-285): 0 for the empty
string, otherwise the measuring loop starting with `curw = maxw = 0` and
no previous glyph. -/
def GetTextWidth_ (adv : Nat → ℚ) (kern : Nat → Nat → ℚ) (text : List Nat) : ℚ :=
  if text = [] then 0 else widthLoop adv kern text 0 0 none

/-- The measuring loop of `CglFont::GetTextHeight_` (glFont.cpp lines
301-332).  `ht c` and `desc c` model `GetGlyph(c).height` and
`GetGlyph(c).descender`; `lh` and `fd` model `GetLineHeight()` and
`GetDescender()` of the external font data.  The state is the running
height `h` (grown only on the first line, via the
`g.height * (multiLine < 2)` factor), the running descender `d` (reset to
`GetLineHeight() + GetDescender()` at every line break) and the line
counter `ml`. -/
def heightLoop (ht desc : Nat → ℚ) (lh fd : ℚ) :
    List Nat → ℚ → ℚ → Nat → ℚ × ℚ × Nat
  | [], h, d, ml => (h, d, ml)
  | b :: rest, h, d, ml =>
    if hcc : (utf8Next (b :: rest)).1 = ColorCodeIndicator then
      heightLoop ht desc lh fd
        (SkipColorCodes ((b :: rest).drop ((utf8Next (b :: rest)).2 - 1))) h d ml
    else if (utf8Next (b :: rest)).1 = ColorResetIndicator then
      heightLoop ht desc lh fd ((b :: rest).drop (utf8Next (b :: rest)).2) h d ml
    else if (utf8Next (b :: rest)).1 = 13 then
      heightLoop ht desc lh fd
        (if ((b :: rest).drop (utf8Next (b :: rest)).2).headD 0 = 10
          then ((b :: rest).drop (utf8Next (b :: rest)).2).drop 1
          else (b :: rest).drop (utf8Next (b :: rest)).2)
        h (lh + fd) (ml + 1)
    else if (utf8Next (b :: rest)).1 = 10 then
      heightLoop ht desc lh fd ((b :: rest).drop (utf8Next (b :: rest)).2)
        h (lh + fd) (ml + 1)
    else
      heightLoop ht desc lh fd ((b :: rest).drop (utf8Next (b :: rest)).2)
        (max h (ht (utf8Next (b :: rest)).1 * (if ml < 2 then 1 else 0)))
        (min d (desc (utf8Next (b :: rest)).1)) ml
termination_by l => l.length
decreasing_by
  · simpa using utf8Next_cci_skip_lt b rest hcc
  · have hk := utf8Next_snd_pos (b :: rest)
    simp only [List.length_drop, List.length_cons]; omega
  · have hk := utf8Next_snd_pos (b :: rest)
    split <;> (simp only [List.length_drop, List.length_cons]; omega)
  · have hk := utf8Next_snd_pos (b :: rest)
    simp only [List.length_drop, List.length_cons]; omega
  · have hk := utf8Next_snd_pos (b :: rest)
    simp only [List.length_drop, List.length_cons]; omega

/-- `CglFont::GetTextHeight_` (glFont.cpp lines 288-340), returning the
triple (height, descender, numLines).  The empty string gives (0, 0, 0);
otherwise the loop starts with `h = 0`, `d = GetLineHeight() +
GetDescender()` and `multiLine = 1`, and at the end `(multiLine - 1) *
GetLineHeight() * (multiLine > 1)` is subtracted from the descender. -/
def GetTextHeight_ (ht desc : Nat → ℚ) (lh fd : ℚ) (text : List Nat) :
    ℚ × ℚ × Nat :=
  if text = [] then (0, 0, 0)
  else
    match heightLoop ht desc lh fd text 0 (lh + fd) 1 with
    | (h, d, ml) => (h, d - ((ml - 1 : ℕ) : ℚ) * lh * (if 1 < ml then 1 else 0), ml)

/-- The gamma-corrected relative luminance formula of
`CglFont::ChooseOutlineColor` (glFont.cpp lines 499-502):
`0.05 + 0.2126 * pow(r, 2.2) + 0.7152 * pow(g, 2.2) + 0.0722 * pow(b, 2.2)`,
with `pow(x, 2.2)` modelled by the abstract parameter `pw`. -/
def luminosity (pw : ℚ → ℚ) (c : Color4) : ℚ :=
  1/20 + (2126/10000) * pw c.r + (7152/10000) * pw c.g + (722/10000) * pw c.b

/-- The static `darkLuminosity` (glFont.cpp lines 46-49): the identical
luminance formula applied to the `darkOutline` reference color. -/
def darkLuminosity (pw : ℚ → ℚ) : ℚ :=
  1/20 + (2126/10000) * pw darkOutline.r + (7152/10000) * pw darkOutline.g
    + (722/10000) * pw darkOutline.b

/-- `CglFont::ChooseOutlineColor` (glFont.cpp lines 497-511): return the
dark outline when the luminance contrast ratio `max / min` exceeds 5,
otherwise the light outline. -/
def ChooseOutlineColor (pw : ℚ → ℚ) (textColor : Color4) : Color4 :=
  if 5 < max (luminosity pw textColor) (darkLuminosity pw)
        / min (luminosity pw textColor) (darkLuminosity pw)
  then darkOutline
  else lightOutline

/-- The mutable state of a `CglFont` relevant to the batch-accumulation
protocol: the session flag `inBeginEnd`, the flags `autoOutlineColor` and
`setColor`, the two live colors, the vertex counts of the primary (`va`)
and outline/shadow (`va2`) vertex arrays (`drawIndex()`, 4 per quad), the
two strip color sequences, and the strip boundaries recorded by
`va.EndStrip()` / `va2.EndStrip()` (the vertex count at which each strip
was closed; `VertexArray` itself is external to the excerpt). -/
structure FontState where
  inBeginEnd : Bool
  autoOutlineColor : Bool
  setColor : Bool
  textColor : Color4
  outlineColor : Color4
  vaSize : Nat
  va2Size : Nat
  stripTextColors : List Color4
  stripOutlineColors : List Color4
  textBounds : List Nat
  outlineBounds : List Nat
deriving DecidableEq

/-- `CglFont::SetTextColor` (glFont.cpp lines 442-463).  A null pointer
defaults to `white`.  Inside a Begin/End session, when the new color
differs from the current text color: if the primary vertex collection is
still empty and the strip color list is non-empty, the last strip color is
overwritten in place; otherwise the new color is appended and
`va.EndStrip()` records the boundary at the current vertex count.  In all
cases the persistent `textColor` is updated last. -/
def SetTextColor (color : Option Color4) (s : FontState) : FontState :=
  let c := color.getD white
  let s' :=
    if s.inBeginEnd ∧ ¬c = s.textColor then
      if s.vaSize = 0 ∧ ¬s.stripTextColors = [] then
        { s with stripTextColors := s.stripTextColors.dropLast ++ [c] }
      else
        { s with stripTextColors := s.stripTextColors ++ [c],
                 textBounds := s.textBounds ++ [s.vaSize] }
    else s
  { s' with textColor := c }

/-- `CglFont::SetOutlineColor` (glFont.cpp lines 466-487).  A null pointer
defaults to `ChooseOutlineColor(textColor)`; otherwise identical to
`SetTextColor` but acting on the outline color, the `va2` vertex count and
the outline strip sequence. -/
def SetOutlineColor (pw : ℚ → ℚ) (color : Option Color4) (s : FontState) :
    FontState :=
  let c := color.getD (ChooseOutlineColor pw s.textColor)
  let s' :=
    if s.inBeginEnd ∧ ¬c = s.outlineColor then
      if s.va2Size = 0 ∧ ¬s.stripOutlineColors = [] then
        { s with stripOutlineColors := s.stripOutlineColors.dropLast ++ [c] }
      else
        { s with stripOutlineColors := s.stripOutlineColors ++ [c],
                 outlineBounds := s.outlineBounds ++ [s.va2Size] }
    else s
  { s' with outlineColor := c }

/-- `CglFont::SetColors` (glFont.cpp lines 490-494): `SetTextColor` then
`SetOutlineColor`. -/
def SetColors (pw : ℚ → ℚ) (textColor outlineColor : Option Color4)
    (s : FontState) : FontState :=
  SetOutlineColor pw outlineColor (SetTextColor textColor s)

/-- `CglFont::Begin` (glFont.cpp lines 517-550).  If a session is already
active, report a usage error (second component `true`) and leave the state
untouched.  Otherwise set `autoOutlineColor`, derive `setColor` from
`immediate`, optionally reset both colors to their defaults
(`SetColors()` with null pointers), mark the session active, clear both
vertex collections and both strip sequences, and seed each strip sequence
with one strip of the current respective color. -/
def Begin (pw : ℚ → ℚ) (immediate resetColors : Bool) (s : FontState) :
    FontState × Bool :=
  if s.inBeginEnd then (s, true)
  else
    let s1 := { s with autoOutlineColor := true, setColor := !immediate }
    let s2 := if resetColors then SetColors pw none none s1 else s1
    ({ s2 with
        inBeginEnd := true,
        vaSize := 0, va2Size := 0,
        textBounds := [], outlineBounds := [],
        stripTextColors := [s2.textColor],
        stripOutlineColors := [s2.outlineColor] }, false)

/-- `CglFont::End` (glFont.cpp lines 553-610).  With no active session,
report a usage error (`true`) and perform no draw (0 draw calls), leaving
the state unchanged.  Otherwise clear the session flag; with an empty
primary collection no draw is issued, else the outline/shadow collection
is drawn first when non-empty, followed by the primary collection (the
third component counts the `DrawArray2dT` submissions). -/
def End (s : FontState) : FontState × Bool × Nat :=
  if s.inBeginEnd then
    if s.vaSize = 0 then ({ s with inBeginEnd := false }, false, 0)
    else
      ({ s with inBeginEnd := false }, false,
        (if 0 < s.va2Size then 1 else 0) + 1)
  else (s, true, 0)

/-- One glyph quad appended during a session: the four `AddVertexQ2dT`
calls of `CglFont::RenderString` (glFont.cpp lines 688-691) grow the
primary vertex collection by 4 vertices. -/
def AddQuad (s : FontState) : FontState :=
  { s with vaSize := s.vaSize + 4 }

/-- The strip invariant of the batch accumulator (spec §3 "Strip"): the
strip color sequence is non-empty, consecutive strip colors are distinct,
the last strip carries the current text color, and while no vertex has
been accumulated there is exactly one (pending) strip. -/
def StripInv (s : FontState) : Prop :=
  ¬s.stripTextColors = []
    ∧ List.Chain' (fun a b => ¬a = b) s.stripTextColors
    ∧ s.stripTextColors.getLast? = some s.textColor
    ∧ (s.vaSize = 0 → s.stripTextColors.length = 1)

/-- Spec-side view of one §4.1 codepoint-granularity scan (the scan shared
by `GetTextWidth_` and `GetTextHeight_`): the ordered list of lines, each
line being the list of printable codepoints on it.  Control tokens
contribute nothing and do not interrupt a line; CR, LF and CR+LF close the
current line and open a new one. -/
def specLines : List Nat → List (List Nat)
  | [] => [[]]
  | b :: rest =>
    if hcc : (utf8Next (b :: rest)).1 = ColorCodeIndicator then
      specLines (SkipColorCodes ((b :: rest).drop ((utf8Next (b :: rest)).2 - 1)))
    else if (utf8Next (b :: rest)).1 = ColorResetIndicator then
      specLines ((b :: rest).drop (utf8Next (b :: rest)).2)
    else if (utf8Next (b :: rest)).1 = 13 then
      [] :: specLines
        (if ((b :: rest).drop (utf8Next (b :: rest)).2).headD 0 = 10
          then ((b :: rest).drop (utf8Next (b :: rest)).2).drop 1
          else (b :: rest).drop (utf8Next (b :: rest)).2)
    else if (utf8Next (b :: rest)).1 = 10 then
      [] :: specLines ((b :: rest).drop (utf8Next (b :: rest)).2)
    else
      match specLines ((b :: rest).drop (utf8Next (b :: rest)).2) with
      | [] => [[(utf8Next (b :: rest)).1]]
      | L :: Ls => ((utf8Next (b :: rest)).1 :: L) :: Ls
termination_by l => l.length
decreasing_by
  · simpa using utf8Next_cci_skip_lt b rest hcc
  · have hk := utf8Next_snd_pos (b :: rest)
    simp only [List.length_drop, List.length_cons]; omega
  · have hk := utf8Next_snd_pos (b :: rest)
    split <;> (simp only [List.length_drop, List.length_cons]; omega)
  · have hk := utf8Next_snd_pos (b :: rest)
    simp only [List.length_drop, List.length_cons]; omega
  · have hk := utf8Next_snd_pos (b :: rest)
    simp only [List.length_drop, List.length_cons]; omega

/-- Prepend the pending previous glyph (if any) to a glyph line. -/
def optCons : Option Nat → List Nat → List Nat
  | none, gs => gs
  | some p, gs => p :: gs

/-- Width of one line as the measuring loop accumulates it: the sum of
`kern` over consecutive glyph pairs plus the advance of the last glyph. -/
def lineWidthK (adv : Nat → ℚ) (kern : Nat → Nat → ℚ) : List Nat → ℚ
  | [] => 0
  | [g] => adv g
  | a :: b :: rest => kern a b + lineWidthK adv kern (b :: rest)

/-- Sum of a binary function over consecutive pairs of a list. -/
def pairsSum (f : Nat → Nat → ℚ) : List Nat → ℚ
  | a :: b :: rest => f a b + pairsSum f (b :: rest)
  | _ => 0

/-- Width of one line as the claim words it: the sum of the glyph advances
plus the sum of the kerning adjustments between consecutive printable
glyphs of the line. -/
def claimLineWidth (adv : Nat → ℚ) (adjust : Nat → Nat → ℚ) (gs : List Nat) : ℚ :=
  (gs.map adv).sum + pairsSum adjust gs

/-- Maximum of a list of rationals (0 for the empty list, no artificial
floor on non-empty lists). -/
def maxQ : List ℚ → ℚ
  | [] => 0
  | [x] => x
  | x :: y :: rest => max x (maxQ (y :: rest))

/-- Spec-side line-break count: CR, LF and CR+LF (as a unit) each count
one break; every other byte counts nothing. -/
def countBreaks : List Nat → Nat
  | 13 :: 10 :: rest => 1 + countBreaks rest
  | 13 :: rest => 1 + countBreaks rest
  | 10 :: rest => 1 + countBreaks rest
  | _ :: rest => countBreaks rest
  | [] => 0

/-- An item of a well-formed colored text (claim C9): either a printable
byte or a well-formed 4-byte color-set sequence. -/
inductive TItem where
  | chr (b : Nat)
  | colorSeq (r g b : Nat)
deriving DecidableEq

/-- A printable item must not collide with the color-code indicator. -/
def itemOk : TItem → Bool
  | .chr b => !(b = ColorCodeIndicator)
  | .colorSeq _ _ _ => true

/-- Serialize a list of text items to bytes. -/
def renderItems : List TItem → List Nat
  | [] => []
  | .chr b :: rest => b :: renderItems rest
  | .colorSeq r g b :: rest =>
    ColorCodeIndicator :: r :: g :: b :: renderItems rest

/-- The printable bytes of a list of text items, in order. -/
def printableItems : List TItem → List Nat
  | [] => []
  | .chr b :: rest => b :: printableItems rest
  | .colorSeq _ _ _ :: rest => printableItems rest

/-- The outline choice exactly as the spec words it (§4.5): compute
L = 0.05 + 0.2126·R^2.2 + 0.7152·G^2.2 + 0.0722·B^2.2 for the text color
and for the fixed dark-outline reference color (0.05, 0.05, 0.05), take
ratio = max/min, choose the dark outline when ratio > 5.0 and the light
outline otherwise. -/
def specOutlineColor (pw : ℚ → ℚ) (tc : Color4) : Color4 :=
  if 5 < max (1/20 + (2126/10000) * pw tc.r + (7152/10000) * pw tc.g
        + (722/10000) * pw tc.b)
      (1/20 + (2126/10000) * pw (1/20) + (7152/10000) * pw (1/20)
        + (722/10000) * pw (1/20))
    / min (1/20 + (2126/10000) * pw tc.r + (7152/10000) * pw tc.g
        + (722/10000) * pw tc.b)
      (1/20 + (2126/10000) * pw (1/20) + (7152/10000) * pw (1/20)
        + (722/10000) * pw (1/20))
  then darkOutline
  else lightOutline

/-- The descender exactly as claim C3 words it: the minimum glyph
descender over all printable glyphs of the entire text (started, as in the
code, from `GetLineHeight() + GetDescender()`), minus
(lineCount - 1) × lineHeight when the text spans more than one line. -/
def claimDescenderC3 (desc : Nat → ℚ) (lh fd : ℚ) (text : List Nat) : ℚ :=
  ((specLines text).flatten.map desc).foldl min (lh + fd)
    - (((specLines text).length - 1 : ℕ) : ℚ) * lh
      * (if 1 < (specLines text).length then 1 else 0)

/-- C5: calling Begin while a batch session is already active reports a
usage error and is otherwise a no-op leaving the first session's
accumulated vertices and strip sequences untouched; calling End with no
active session reports a usage error and performs no draw; both are total
functions (no exception or abort is modelled because none can occur). -/
theorem begin_end_usage_errors :
    (∀ (pw : ℚ → ℚ) (immediate resetColors : Bool) (s : FontState),
      s.inBeginEnd = true → Begin pw immediate resetColors s = (s, true))
    ∧ (∀ s : FontState, s.inBeginEnd = false → End s = (s, true, 0)) := by
  constructor
  · intro pw immediate resetColors s h
    simp [Begin, h]
  · intro s h
    simp [End, h]

/-- Witness for C5 at concrete states: a state with an active session
rejects Begin unchanged, a state with no session rejects End with no
draw. -/
theorem begin_end_usage_errors_witness :
    Begin (fun x => x) true true
        ⟨true, true, false, white, white, 8, 0, [white], [white], [], []⟩
      = (⟨true, true, false, white, white, 8, 0, [white], [white], [], []⟩, true)
    ∧ End ⟨false, true, false, white, white, 0, 0, [white], [white], [], []⟩
      = (⟨false, true, false, white, white, 0, 0, [white], [white], [], []⟩, true, 0) :=
  ⟨begin_end_usage_errors.1 (fun x => x) true true _ rfl,
   begin_end_usage_errors.2 _ rfl⟩

/-- C10: SetTextColor with a null pointer behaves exactly like SetTextColor
with the fixed default white (1, 1, 1, 0.95) and leaves the persistent text
color equal to white; SetOutlineColor with a null pointer behaves exactly
like SetOutlineColor with ChooseOutlineColor of the current text color;
both hold for every state, whether or not a batch session is active. -/
theorem setColor_null_defaults :
    (∀ s : FontState,
      SetTextColor none s = SetTextColor (some white) s
        ∧ (SetTextColor none s).textColor = white)
    ∧ (∀ (pw : ℚ → ℚ) (s : FontState),
      SetOutlineColor pw none s
          = SetOutlineColor pw (some (ChooseOutlineColor pw s.textColor)) s
        ∧ (SetOutlineColor pw none s).outlineColor
          = ChooseOutlineColor pw s.textColor)
    ∧ white = ⟨1, 1, 1, 19/20⟩ := by
  refine ⟨fun s => ⟨rfl, ?_⟩, fun pw s => ⟨rfl, ?_⟩, rfl⟩
  · simp only [SetTextColor, Option.getD_none]
  · simp only [SetOutlineColor, Option.getD_none]

/-- C7: the outline selector computes the gamma-corrected luminance
contrast ratio exactly as the spec words it, and for a text color equal to
the fixed dark-outline reference color it returns the light outline (the
ratio is 1, not above 5), for every nonnegativity-preserving model of
`pow(x, 2.2)`. -/
theorem chooseOutlineColor_spec (pw : ℚ → ℚ) (hpw : ∀ x, 0 ≤ x → 0 ≤ pw x) :
    (∀ tc, ChooseOutlineColor pw tc = specOutlineColor pw tc)
    ∧ ChooseOutlineColor pw darkOutline = lightOutline := by
  have hL : 0 < darkLuminosity pw := by
    have h1 : 0 ≤ pw (1/20) := hpw _ (by norm_num)
    unfold darkLuminosity darkOutline
    simp only
    nlinarith
  constructor
  · intro tc
    rfl
  · have heq : luminosity pw darkOutline = darkLuminosity pw := rfl
    unfold ChooseOutlineColor
    rw [heq, max_self, min_self, div_self (ne_of_gt hL), if_neg (by norm_num)]

/-- Witness for C7 with the concrete gamma model x ↦ x·x. -/
theorem chooseOutlineColor_spec_witness :
    (∀ x : ℚ, 0 ≤ x → 0 ≤ x * x)
    ∧ ChooseOutlineColor (fun x => x * x) darkOutline = lightOutline :=
  ⟨fun x hx => mul_nonneg hx hx,
   (chooseOutlineColor_spec (fun x => x * x) (fun x hx => mul_nonneg hx hx)).2⟩

/-- C1 (code bug): with two color-set sequences open, the line produced
after a line break starts with only the topmost open color code
`[255, 4, 5, 6]` — the loop `for (auto& color: colorCodeStack)
lines.back() = color;` assigns instead of appending, so the new line is
not prefixed with the entire stack `[255, 1, 2, 3, 255, 4, 5, 6]`
bottom-to-top. -/
theorem splitIntoLines_code_bug :
    SplitIntoLines [255, 1, 2, 3, 255, 4, 5, 6, 10, 65]
      = [[255, 1, 2, 3, 255, 4, 5, 6], [255, 4, 5, 6, 65]]
    ∧ ((SplitIntoLines [255, 1, 2, 3, 255, 4, 5, 6, 10, 65]).getD 1 []).take 8
      ≠ [255, 1, 2, 3, 255, 4, 5, 6] := by
  have h : SplitIntoLines [255, 1, 2, 3, 255, 4, 5, 6, 10, 65]
      = [[255, 1, 2, 3, 255, 4, 5, 6], [255, 4, 5, 6, 65]] := by
    simp [SplitIntoLines, splitLoop, ColorCodeIndicator, ColorResetIndicator]
  exact ⟨h, by rw [h]; decide⟩

/-- C2 counterexample: in the text [255, 10, 20, 30] the color-set
indicator at position 0 is followed by exactly 3 bytes, so the claim
demands a signalled color change; the scanner instead consumes the
sequence to the string end without signalling any color change (the
source guards the signal with `*pos < length` after `*pos += 4`, which
requires a fourth byte after the indicator). -/
theorem skipColorCodesAndNewLines_counterexample :
    (SkipColorCodesAndNewLines [255, 10, 20, 30] 0 white white).colorChanged = false
    ∧ SkipColorCodesAndNewLines [255, 10, 20, 30] 0 white white
      = ⟨4, white, false, 0, true⟩ := by
  have h : SkipColorCodesAndNewLines [255, 10, 20, 30] 0 white white
      = ⟨4, white, false, 0, true⟩ := by
    unfold SkipColorCodesAndNewLines
    rw [skipCCNLLoop.eq_def]
    norm_num [ColorCodeIndicator]
    rw [skipCCNLLoop.eq_def]
    norm_num
  exact ⟨by rw [h], h⟩

/-- C2 as amended: at a color-set indicator the scanner signals a color
change to (byte1/255, byte2/255, byte3/255) and advances the cursor past
the 4-byte sequence when at least 4 more bytes follow the indicator;
when at most 3 bytes follow (including a complete color triple that ends
the string) the sequence is consumed — the cursor moves to or past the
string end — with no color change signalled and no error raised (on a
fresh call the reported `colorChanged` stays `false`). -/
theorem skipColorCodesAndNewLines_colorset (text : List Nat) (pos : Nat)
    (color colorReset : Color4) (colorChanged : Bool) (skippedLines : Nat)
    (hpos : pos < text.length) (hcc : text.getD pos 0 = ColorCodeIndicator) :
    (pos + 4 < text.length →
      skipCCNLLoop text colorReset pos color colorChanged skippedLines
        = skipCCNLLoop text colorReset (pos + 4)
            ⟨(text.getD (pos + 1) 0 : ℚ) / 255, (text.getD (pos + 2) 0 : ℚ) / 255,
             (text.getD (pos + 3) 0 : ℚ) / 255, color.a⟩ true skippedLines)
    ∧ (text.length ≤ pos + 4 →
      skipCCNLLoop text colorReset pos color colorChanged skippedLines
        = ⟨pos + 4, color, colorChanged, skippedLines, true⟩)
    ∧ (text.length ≤ pos + 4 →
      SkipColorCodesAndNewLines text pos color colorReset
        = ⟨pos + 4, color, false, 0, true⟩) := by
  have e1 : pos + 4 - 3 = pos + 1 := by omega
  have e2 : pos + 4 - 2 = pos + 2 := by omega
  have e3 : pos + 4 - 1 = pos + 3 := by omega
  refine ⟨?_, ?_, ?_⟩
  · intro h4
    conv_lhs => rw [skipCCNLLoop.eq_def]
    rw [if_pos hpos, if_pos hcc, if_pos h4, e1, e2, e3]
  · intro h4
    conv_lhs => rw [skipCCNLLoop.eq_def]
    rw [if_pos hpos, if_pos hcc, if_neg (by omega)]
    rw [skipCCNLLoop.eq_def]
    rw [if_neg (by omega)]
  · intro h4
    unfold SkipColorCodesAndNewLines
    conv_lhs => rw [skipCCNLLoop.eq_def]
    rw [if_pos hpos, if_pos hcc, if_neg (by omega)]
    rw [skipCCNLLoop.eq_def]
    rw [if_neg (by omega)]

/-- Witness for the amended C2 at a concrete input: in
[255, 10, 20, 30, 65] the indicator at position 0 is followed by 4 bytes,
so the scan continues at position 4 with the color set to
(10/255, 20/255, 30/255) and the signal raised; and for the truncated
tail [255, 10, 20] the sequence is consumed with no signal. -/
theorem skipColorCodesAndNewLines_colorset_witness :
    (0 : Nat) < ([255, 10, 20, 30, 65] : List Nat).length
    ∧ ([255, 10, 20, 30, 65] : List Nat).getD 0 0 = ColorCodeIndicator
    ∧ skipCCNLLoop [255, 10, 20, 30, 65] white 0 white false 0
        = skipCCNLLoop [255, 10, 20, 30, 65] white 4
            ⟨(10 : ℚ) / 255, (20 : ℚ) / 255, (30 : ℚ) / 255, white.a⟩ true 0
    ∧ SkipColorCodesAndNewLines [255, 10, 20] 0 white white
        = ⟨4, white, false, 0, true⟩ := by
  refine ⟨by decide, by decide, ?_, ?_⟩
  · have h := (skipColorCodesAndNewLines_colorset [255, 10, 20, 30, 65] 0
      white white false 0 (by decide) (by decide)).1 (by decide)
    simpa using h
  · exact (skipColorCodesAndNewLines_colorset [255, 10, 20] 0
      white white false 0 (by decide) (by decide)).2.2 (by decide)

lemma stripColorCodes_id_of_no_cci (l : List Nat)
    (h : ∀ b ∈ l, ¬b = ColorCodeIndicator) : StripColorCodes_ l = l := by
  induction l with
  | nil => simp [StripColorCodes_]
  | cons b rest ih =>
    have hb : ¬b = ColorCodeIndicator := h b (by simp)
    simp only [StripColorCodes_]
    rw [if_neg hb, ih (fun x hx => h x (by simp [hx]))]

lemma mem_printableItems_ne_cci (items : List TItem)
    (h : items.all itemOk = true) :
    ∀ b ∈ printableItems items, ¬b = ColorCodeIndicator := by
  induction items with
  | nil => simp [printableItems]
  | cons it rest ih =>
    have hit : itemOk it = true := by
      have := List.all_eq_true.mp h
      exact this it (by simp)
    have hr : rest.all itemOk = true := by
      refine List.all_eq_true.mpr (fun x hx => ?_)
      exact List.all_eq_true.mp h x (by simp [hx])
    rcases it with b | ⟨r, g, bb⟩
    · intro x hx
      simp only [printableItems, List.mem_cons] at hx
      rcases hx with hx | hx
      · subst hx
        simpa [itemOk] using hit
      · exact ih hr x hx
    · intro x hx
      simp only [printableItems] at hx
      exact ih hr x hx

/-- C9: on text made only of printable characters and well-formed 4-byte
color-set sequences, StripColorCodes returns exactly the printable
characters in their original order, and it is idempotent on its own
output. -/
theorem stripColorCodes_spec (items : List TItem) (h : items.all itemOk = true) :
    StripColorCodes_ (renderItems items) = printableItems items
    ∧ StripColorCodes_ (StripColorCodes_ (renderItems items))
      = StripColorCodes_ (renderItems items) := by
  have h1 : StripColorCodes_ (renderItems items) = printableItems items := by
    induction items with
    | nil => simp [renderItems, printableItems, StripColorCodes_]
    | cons it rest ih =>
      have hit : itemOk it = true := by
        have := List.all_eq_true.mp h
        exact this it (by simp)
      have hr : rest.all itemOk = true := by
        refine List.all_eq_true.mpr (fun x hx => ?_)
        exact List.all_eq_true.mp h x (by simp [hx])
      rcases it with b | ⟨r, g, bb⟩
      · have hb : ¬b = ColorCodeIndicator := by simpa [itemOk] using hit
        simp only [renderItems, printableItems, StripColorCodes_]
        rw [if_neg hb, ih hr]
      · simp only [renderItems, printableItems, StripColorCodes_]
        simpa using ih hr
  refine ⟨h1, ?_⟩
  rw [h1]
  exact stripColorCodes_id_of_no_cci _ (mem_printableItems_ne_cci items h)

/-- Witness for C9 at a concrete item list. -/
theorem stripColorCodes_spec_witness :
    ([TItem.chr 65, TItem.colorSeq 1 2 3, TItem.chr 66].all itemOk = true)
    ∧ StripColorCodes_
        (renderItems [TItem.chr 65, TItem.colorSeq 1 2 3, TItem.chr 66])
      = printableItems [TItem.chr 65, TItem.colorSeq 1 2 3, TItem.chr 66]
    ∧ StripColorCodes_ (StripColorCodes_
        (renderItems [TItem.chr 65, TItem.colorSeq 1 2 3, TItem.chr 66]))
      = StripColorCodes_
        (renderItems [TItem.chr 65, TItem.colorSeq 1 2 3, TItem.chr 66]) :=
  ⟨by decide,
   (stripColorCodes_spec _ (by decide)).1,
   (stripColorCodes_spec _ (by decide)).2⟩

lemma countBreaks_cons_cr_lf (r : List Nat) :
    countBreaks (13 :: 10 :: r) = 1 + countBreaks r := rfl

lemma countBreaks_cons_lf (r : List Nat) :
    countBreaks (10 :: r) = 1 + countBreaks r := rfl

lemma countBreaks_cons_cr (r : List Nat) (hr : ¬r.headD 0 = 10) :
    countBreaks (13 :: r) = 1 + countBreaks r := by
  rcases r with _ | ⟨r0, r'⟩
  · rfl
  · simp only [List.headD_cons] at hr
    rw [countBreaks.eq_def]
    split <;> simp_all [countBreaks]

lemma countBreaks_cons_other (b : Nat) (r : List Nat) (h13 : ¬b = 13)
    (h10 : ¬b = 10) : countBreaks (b :: r) = countBreaks r := by
  rw [countBreaks.eq_def]
  split <;> simp_all

lemma numLinesLoop_spec_aux : ∀ (len : Nat) (l : List Nat), l.length ≤ len →
    ∀ (n : Nat), (∀ b ∈ l, ¬b = ColorCodeIndicator ∧ ¬b = ColorResetIndicator) →
    numLinesLoop l n = n + countBreaks l := by
  intro len
  induction len using Nat.strong_induction_on with
  | _ len ih =>
  intro l hlen n h
  rcases l with _ | ⟨b, rest⟩
  · simp [numLinesLoop, countBreaks]
  · have hb := h b (by simp)
    rw [numLinesLoop.eq_def]
    simp only [dif_neg hb.1, if_neg hb.2]
    simp only [List.length_cons] at hlen
    by_cases h13 : b = 13
    · subst h13
      by_cases h10 : rest.headD 0 = 10
      · rcases rest with _ | ⟨r0, r'⟩
        · simp at h10
        · simp only [List.headD_cons] at h10
          subst h10
          norm_num [List.headD_cons, List.drop_one, List.tail_cons]
          rw [ih r'.length (by simp at hlen; omega) r' le_rfl (n + 1)
            (fun x hx => h x (by simp [hx]))]
          rw [countBreaks_cons_cr_lf]
          omega
      · have h10q : ¬rest.head?.getD 0 = 10 := by
          simpa [← List.headD_eq_head?_getD] using h10
        norm_num [if_neg h10q]
        rw [ih rest.length (by omega) rest le_rfl (n + 1)
          (fun x hx => h x (by simp [hx]))]
        rw [countBreaks_cons_cr rest h10]
        omega
    · by_cases h10 : b = 10
      · subst h10
        norm_num [if_neg h13]
        rw [ih rest.length (by omega) rest le_rfl (n + 1)
          (fun x hx => h x (by simp [hx]))]
        rw [countBreaks_cons_lf]
        omega
      · simp only [if_neg h13, if_neg h10]
        rw [ih rest.length (by omega) rest le_rfl n
          (fun x hx => h x (by simp [hx]))]
        rw [countBreaks_cons_other b rest h13 h10]

lemma numLinesLoop_spec (l : List Nat) (n : Nat)
    (h : ∀ b ∈ l, ¬b = ColorCodeIndicator ∧ ¬b = ColorResetIndicator) :
    numLinesLoop l n = n + countBreaks l :=
  numLinesLoop_spec_aux l.length l le_rfl n h

/-- C8: for every string containing no control sequences,
GetTextNumLines returns 1 plus the number of line breaks, where CR, LF
and CR+LF each count exactly one break; for the empty string it
returns 0. -/
theorem getTextNumLines_spec (text : List Nat)
    (h : ∀ b ∈ text, ¬b = ColorCodeIndicator ∧ ¬b = ColorResetIndicator) :
    GetTextNumLines_ text = if text = [] then 0 else 1 + countBreaks text := by
  unfold GetTextNumLines_
  split
  · rfl
  · exact numLinesLoop_spec text 1 h

/-- Witness for C8 on "A\r\nB\nC": CR+LF counts once, LF counts once,
giving 3 lines. -/
theorem getTextNumLines_spec_witness :
    (∀ b ∈ ([65, 13, 10, 66, 10, 67] : List Nat),
      ¬b = ColorCodeIndicator ∧ ¬b = ColorResetIndicator)
    ∧ GetTextNumLines_ [65, 13, 10, 66, 10, 67]
      = if ([65, 13, 10, 66, 10, 67] : List Nat) = [] then 0
        else 1 + countBreaks [65, 13, 10, 66, 10, 67] :=
  ⟨by decide, getTextNumLines_spec _ (by decide)⟩

lemma setTextColor_textColor (c : Color4) (s : FontState) :
    (SetTextColor (some c) s).textColor = c := rfl

lemma setTextColor_vaSize (c : Color4) (s : FontState) :
    (SetTextColor (some c) s).vaSize = s.vaSize := by
  unfold SetTextColor
  dsimp only [Option.getD_some]
  split_ifs <;> rfl

lemma setTextColor_same (s : FontState) (c : Color4) (hc : c = s.textColor) :
    SetTextColor (some c) s = s := by
  subst hc
  unfold SetTextColor
  dsimp only [Option.getD_some]
  rw [if_neg (by simp)]

lemma setTextColor_overwrite (s : FontState) (c : Color4)
    (hin : s.inBeginEnd = true) (hinv : StripInv s) (hv : s.vaSize = 0) :
    (SetTextColor (some c) s).stripTextColors = [c] := by
  obtain ⟨hne, hch, hlast, hone⟩ := hinv
  obtain ⟨x, hx⟩ := List.length_eq_one.mp (hone hv)
  rw [hx] at hlast
  simp only [List.getLast?_singleton, Option.some.injEq] at hlast
  by_cases hc : c = s.textColor
  · rw [setTextColor_same s c hc, hx, hlast, hc]
  · unfold SetTextColor
    dsimp only [Option.getD_some]
    rw [if_pos ⟨hin, hc⟩, if_pos ⟨hv, by rw [hx]; simp⟩]
    simp [hx]

lemma setTextColor_append (s : FontState) (c : Color4)
    (hin : s.inBeginEnd = true) (hv : ¬s.vaSize = 0) (hc : ¬c = s.textColor) :
    (SetTextColor (some c) s).stripTextColors = s.stripTextColors ++ [c]
    ∧ (SetTextColor (some c) s).textBounds = s.textBounds ++ [s.vaSize] := by
  unfold SetTextColor
  dsimp only [Option.getD_some]
  rw [if_pos ⟨hin, hc⟩, if_neg (by tauto)]
  exact ⟨rfl, rfl⟩

lemma setTextColor_inv (s : FontState) (c : Color4)
    (hin : s.inBeginEnd = true) (hinv : StripInv s) :
    StripInv (SetTextColor (some c) s) := by
  by_cases hc : c = s.textColor
  · rw [setTextColor_same s c hc]
    exact hinv
  · by_cases hv : s.vaSize = 0
    · have h1 := setTextColor_overwrite s c hin hinv hv
      refine ⟨by simp [h1], by simp [h1], ?_, fun _ => by simp [h1]⟩
      rw [h1, setTextColor_textColor]
      simp
    · obtain ⟨hne, hch, hlast, hone⟩ := hinv
      obtain ⟨h1, h2⟩ := setTextColor_append s c hin hv hc
      refine ⟨by simp [h1], ?_, ?_, fun h0 => ?_⟩
      · rw [h1]
        rw [List.chain'_append]
        refine ⟨hch, by simp, fun x hx y hy => ?_⟩
        rw [hlast] at hx
        simp only [Option.mem_def, Option.some.injEq] at hx
        simp only [List.head?_cons, Option.mem_def, Option.some.injEq] at hy
        subst hx; subst hy
        exact fun hxy => hc hxy.symm
      · rw [h1, setTextColor_textColor]
        simp [List.getLast?_concat]
      · rw [setTextColor_vaSize] at h0
        exact absurd h0 hv

lemma begin_inv (pw : ℚ → ℚ) (immediate resetColors : Bool) (s : FontState)
    (h : s.inBeginEnd = false) : StripInv (Begin pw immediate resetColors s).1 := by
  unfold Begin
  rw [if_neg (by simp [h])]
  exact ⟨by simp, by simp, by simp, fun _ => by simp⟩

/-- C6: during an active batch session, SetTextColor preserves the strip
invariant (non-empty strip list, consecutive strips of distinct colors,
last strip carrying the current text color, exactly one pending strip
while no vertex is accumulated), as does appending a quad, and Begin
establishes it; a call with the current color changes nothing; a call
with a different color while the collection is still empty overwrites the
pending initial strip's color in place; otherwise the call appends a new
strip and records the boundary at the current vertex count; and two calls
with the same color from a fresh session leave exactly one strip. -/
theorem setTextColor_strip_invariant :
    (∀ (s : FontState) (c : Color4),
      s.inBeginEnd = true → StripInv s → StripInv (SetTextColor (some c) s))
    ∧ (∀ s : FontState, StripInv s → StripInv (AddQuad s))
    ∧ (∀ (pw : ℚ → ℚ) (immediate resetColors : Bool) (s : FontState),
      s.inBeginEnd = false → StripInv (Begin pw immediate resetColors s).1)
    ∧ (∀ (s : FontState) (c : Color4),
      c = s.textColor → SetTextColor (some c) s = s)
    ∧ (∀ (s : FontState) (c : Color4),
      s.inBeginEnd = true → StripInv s → s.vaSize = 0 →
        (SetTextColor (some c) s).stripTextColors = [c])
    ∧ (∀ (s : FontState) (c : Color4),
      s.inBeginEnd = true → ¬s.vaSize = 0 → ¬c = s.textColor →
        (SetTextColor (some c) s).stripTextColors = s.stripTextColors ++ [c]
        ∧ (SetTextColor (some c) s).textBounds = s.textBounds ++ [s.vaSize])
    ∧ (∀ (pw : ℚ → ℚ) (c : Color4) (s : FontState),
      s.inBeginEnd = false →
        (SetTextColor (some c) (SetTextColor (some c)
          (Begin pw true false s).1)).stripTextColors.length = 1) := by
  refine ⟨setTextColor_inv, ?_, begin_inv, setTextColor_same, setTextColor_overwrite,
    setTextColor_append, ?_⟩
  · intro s hinv
    obtain ⟨hne, hch, hlast, hone⟩ := hinv
    exact ⟨hne, hch, hlast, fun h0 => by simp [AddQuad] at h0⟩
  · intro pw c s h
    have hinv := begin_inv pw true false s h
    have hin : (Begin pw true false s).1.inBeginEnd = true := by
      unfold Begin
      rw [if_neg (by simp [h])]
    have hv : (Begin pw true false s).1.vaSize = 0 := by
      unfold Begin
      rw [if_neg (by simp [h])]
    have h1 := setTextColor_overwrite _ c hin hinv hv
    rw [setTextColor_same _ c (setTextColor_textColor c _).symm, h1]
    simp

/-- Witness for C6 at a fresh in-session state: the strip invariant holds
and a first SetColor with a different color overwrites the pending strip
in place. -/
theorem setTextColor_strip_invariant_witness :
    (⟨true, true, false, white, white, 0, 0, [white], [white], [], []⟩ :
        FontState).inBeginEnd = true
    ∧ StripInv ⟨true, true, false, white, white, 0, 0, [white], [white], [], []⟩
    ∧ (SetTextColor (some ⟨1, 0, 0, 1⟩)
        ⟨true, true, false, white, white, 0, 0, [white], [white], [], []⟩).stripTextColors
      = [⟨1, 0, 0, 1⟩] := by
  have hinv : StripInv
      ⟨true, true, false, white, white, 0, 0, [white], [white], [], []⟩ :=
    ⟨by simp, by simp, by simp, fun _ => by simp⟩
  exact ⟨rfl, hinv,
    setTextColor_strip_invariant.2.2.2.2.1 _ _ rfl hinv rfl⟩

lemma specLines_ne_nil_aux : ∀ (len : Nat) (l : List Nat), l.length ≤ len →
    ¬specLines l = [] := by
  intro len
  induction len using Nat.strong_induction_on with
  | _ len ih =>
  intro l hlen
  rcases l with _ | ⟨b, rest⟩
  · simp [specLines]
  · simp only [List.length_cons] at hlen
    rw [specLines.eq_def]
    dsimp only
    by_cases hcc : (utf8Next (b :: rest)).1 = ColorCodeIndicator
    · rw [dif_pos hcc]
      have hlt := utf8Next_cci_skip_lt b rest hcc
      exact ih ((SkipColorCodes ((b :: rest).drop ((utf8Next (b :: rest)).2 - 1))).length)
        (by omega) _ le_rfl
    · rw [dif_neg hcc]
      have hk := utf8Next_snd_pos (b :: rest)
      split_ifs with h1 h2 h3
      · exact ih rest.length (by omega) _
          (by simp only [List.length_drop, List.length_cons]; omega)
      · simp
      · simp
      · split <;> simp

lemma specLines_ne_nil (l : List Nat) : ¬specLines l = [] :=
  specLines_ne_nil_aux l.length l le_rfl

lemma maxQ_cons_cons (x y : ℚ) (ys : List ℚ) :
    maxQ (x :: y :: ys) = max x (maxQ (y :: ys)) := rfl

lemma maxQ_nonneg : ∀ xs : List ℚ, (∀ x ∈ xs, 0 ≤ x) → 0 ≤ maxQ xs
  | [] => fun _ => by simp [maxQ]
  | [x] => fun h => by simpa [maxQ] using h x (by simp)
  | x :: y :: ys => fun h => by
    rw [maxQ_cons_cons]
    exact le_max_of_le_right (maxQ_nonneg (y :: ys) (fun z hz => h z (by simp [hz])))

lemma lineWidthK_optCons_nil (adv : Nat → ℚ) (kern : Nat → Nat → ℚ)
    (prv : Option Nat) :
    lineWidthK adv kern (optCons prv [])
      = (match prv with | some p => adv p | none => 0) := by
  cases prv <;> rfl

lemma lineWidthK_optCons_cons (adv : Nat → ℚ) (kern : Nat → Nat → ℚ)
    (prv : Option Nat) (c : Nat) (L : List Nat) :
    lineWidthK adv kern (optCons prv (c :: L))
      = (match prv with | some p => kern p c | none => 0)
        + lineWidthK adv kern (c :: L) := by
  cases prv <;> simp [optCons, lineWidthK]

lemma lineWidthK_nonneg (adv : Nat → ℚ) (kern : Nat → Nat → ℚ)
    (hadv : ∀ c, 0 ≤ adv c) (hkern : ∀ a b, 0 ≤ kern a b) :
    ∀ gs, 0 ≤ lineWidthK adv kern gs
  | [] => by simp [lineWidthK]
  | [g] => by simpa [lineWidthK] using hadv g
  | a :: b :: rest => by
    have ihr := lineWidthK_nonneg adv kern hadv hkern (b :: rest)
    simp only [lineWidthK]
    exact add_nonneg (hkern a b) ihr

lemma lineWidthK_eq_claim (adv : Nat → ℚ) (kern adjust : Nat → Nat → ℚ)
    (hk : ∀ a b, kern a b = adv a + adjust a b) :
    ∀ gs, lineWidthK adv kern gs = claimLineWidth adv adjust gs
  | [] => by simp [lineWidthK, claimLineWidth, pairsSum]
  | [g] => by simp [lineWidthK, claimLineWidth, pairsSum]
  | a :: b :: rest => by
    have ihr := lineWidthK_eq_claim adv kern adjust hk (b :: rest)
    simp only [lineWidthK, claimLineWidth, pairsSum, List.map_cons, List.sum_cons] at ihr ⊢
    rw [hk a b, ihr]
    ring

lemma optCons_none (gs : List Nat) : optCons none gs = gs := rfl

lemma optCons_some (p : Nat) (gs : List Nat) : optCons (some p) gs = p :: gs := rfl

lemma widthLoop_spec_aux (adv : Nat → ℚ) (kern : Nat → Nat → ℚ) :
    ∀ (len : Nat) (l : List Nat), l.length ≤ len →
    ∀ (curw maxw : ℚ) (prv : Option Nat),
    widthLoop adv kern l curw maxw prv
      = max maxw (maxQ ((curw + lineWidthK adv kern (optCons prv (specLines l).headI))
          :: ((specLines l).tail.map (lineWidthK adv kern)))) := by
  intro len
  induction len using Nat.strong_induction_on with
  | _ len ih =>
  intro l hlen curw maxw prv
  rcases l with _ | ⟨b, rest⟩
  · rw [widthLoop.eq_def, specLines.eq_def]
    dsimp only
    simp only [List.headI, List.tail_cons, List.map_nil, maxQ, lineWidthK_optCons_nil]
    exact max_comm _ _
  · simp only [List.length_cons] at hlen
    have hkpos := utf8Next_snd_pos (b :: rest)
    rw [widthLoop.eq_def, specLines.eq_def]
    dsimp only
    by_cases hcc : (utf8Next (b :: rest)).1 = ColorCodeIndicator
    · rw [dif_pos hcc, dif_pos hcc]
      have hlt := utf8Next_cci_skip_lt b rest hcc
      exact ih _ (by omega) _ le_rfl curw maxw prv
    · rw [dif_neg hcc, dif_neg hcc]
      have hdlen : ((b :: rest).drop (utf8Next (b :: rest)).2).length ≤ rest.length := by
        simp only [List.length_drop, List.length_cons]; omega
      by_cases h1 : (utf8Next (b :: rest)).1 = ColorResetIndicator
      · rw [if_pos h1, if_pos h1]
        exact ih _ (by omega) _ (le_of_le_of_eq hdlen rfl) curw maxw prv
      · rw [if_neg h1, if_neg h1]
        by_cases h2 : (utf8Next (b :: rest)).1 = 13
        · rw [if_pos h2, if_pos h2]
          set D := (b :: rest).drop (utf8Next (b :: rest)).2 with hD
          set DD := if D.headD 0 = 10 then D.drop 1 else D with hDD
          have hddlen : DD.length ≤ rest.length := by
            rw [hDD]
            split
            · simp only [List.length_drop]; omega
            · exact hdlen
          obtain ⟨L, Ls, hLL⟩ := List.exists_cons_of_ne_nil (specLines_ne_nil DD)
          rw [ih DD.length (by omega) DD le_rfl 0
            (max (curw + (match prv with | some p => adv p | none => 0)) maxw) none]
          rw [hLL]
          simp only [List.headI_cons, List.tail_cons, List.map_cons, optCons_none,
            zero_add, lineWidthK_optCons_nil, maxQ_cons_cons]
          rw [max_assoc, max_left_comm]
        · rw [if_neg h2, if_neg h2]
          by_cases h3 : (utf8Next (b :: rest)).1 = 10
          · rw [if_pos h3, if_pos h3]
            set D := (b :: rest).drop (utf8Next (b :: rest)).2 with hD
            obtain ⟨L, Ls, hLL⟩ := List.exists_cons_of_ne_nil (specLines_ne_nil D)
            rw [ih D.length (by omega) D le_rfl 0
              (max (curw + (match prv with | some p => adv p | none => 0)) maxw) none]
            rw [hLL]
            simp only [List.headI_cons, List.tail_cons, List.map_cons, optCons_none,
              zero_add, lineWidthK_optCons_nil, maxQ_cons_cons]
            rw [max_assoc, max_left_comm]
          · rw [if_neg h3, if_neg h3]
            set D := (b :: rest).drop (utf8Next (b :: rest)).2 with hD
            obtain ⟨L, Ls, hLL⟩ := List.exists_cons_of_ne_nil (specLines_ne_nil D)
            rw [ih D.length (by omega) D le_rfl
              (curw + (match prv with | some p => kern p (utf8Next (b :: rest)).1 | none => 0))
              maxw (some (utf8Next (b :: rest)).1)]
            rw [hLL]
            simp only [List.headI_cons, List.tail_cons, List.map_cons, optCons_some,
              lineWidthK_optCons_cons]
            rw [add_assoc]

/-- C4: for every text, GetTextWidth returns the maximum over lines of the
sum of glyph advances plus kerning adjustments between consecutive
printable glyphs on that line (given that the external kerning value
decomposes as previous advance plus pair adjustment, with nonnegative
advances and kerning); color-set and color-reset tokens contribute zero
width and are transparent to glyph adjacency, as the third conjunct shows
concretely for an arbitrary color code between two glyphs; the empty
string yields width 0. -/
theorem getTextWidth_spec (adv : Nat → ℚ) (kern adjust : Nat → Nat → ℚ)
    (hk : ∀ a b, kern a b = adv a + adjust a b)
    (hadv : ∀ c, 0 ≤ adv c) (hkern : ∀ a b, 0 ≤ kern a b)
    (text : List Nat) :
    GetTextWidth_ adv kern text
      = maxQ ((specLines text).map (claimLineWidth adv adjust))
    ∧ GetTextWidth_ adv kern [] = 0
    ∧ (∀ r g b2 : Nat,
        GetTextWidth_ adv kern [65, 255, r, g, b2, 66]
          = adv 65 + adv 66 + adjust 65 66) := by
  have hfun : lineWidthK adv kern = claimLineWidth adv adjust :=
    funext (lineWidthK_eq_claim adv kern adjust hk)
  have hmain : ∀ t : List Nat, GetTextWidth_ adv kern t
      = maxQ ((specLines t).map (claimLineWidth adv adjust)) := by
    intro t
    by_cases htext : t = []
    · subst htext
      simp [GetTextWidth_, specLines, claimLineWidth, pairsSum, maxQ]
    · unfold GetTextWidth_
      rw [if_neg htext]
      rw [widthLoop_spec_aux adv kern t.length t le_rfl 0 0 none]
      obtain ⟨L, Ls, hLL⟩ := List.exists_cons_of_ne_nil (specLines_ne_nil t)
      rw [hLL]
      simp only [List.headI_cons, List.tail_cons, optCons_none, zero_add,
        List.map_cons]
      have hnn : 0 ≤ maxQ (lineWidthK adv kern L
          :: Ls.map (lineWidthK adv kern)) := by
        refine maxQ_nonneg _ (fun x hx => ?_)
        simp only [List.mem_cons, List.mem_map] at hx
        rcases hx with hx | ⟨y, _, hy⟩
        · subst hx; exact lineWidthK_nonneg adv kern hadv hkern L
        · subst hy; exact lineWidthK_nonneg adv kern hadv hkern y
      rw [max_eq_right hnn, hfun]
  refine ⟨hmain text, ?_, ?_⟩
  · rw [hmain []]
    simp [specLines, claimLineWidth, pairsSum, maxQ]
  · intro r g b2
    rw [hmain [65, 255, r, g, b2, 66]]
    have hsl : specLines [65, 255, r, g, b2, 66] = [[65, 66]] := by
      simp [specLines, utf8Next, SkipColorCodes, ColorCodeIndicator,
        ColorResetIndicator, contByte]
    rw [hsl]
    simp [claimLineWidth, pairsSum, maxQ]

/-- Witness for C4 with unit advances, unit kerning and zero adjustment
on the two-line text "A\nBC": the width is the second line's
1 + 1 + 0 = 2. -/
theorem getTextWidth_spec_witness :
    GetTextWidth_ (fun _ => 1) (fun _ _ => 1) [65, 10, 66, 67]
      = maxQ ((specLines [65, 10, 66, 67]).map
          (claimLineWidth (fun _ => 1) (fun _ _ => 0)))
    ∧ GetTextWidth_ (fun _ => 1) (fun _ _ => 1) [65, 10, 66, 67] = 2 := by
  have h := (getTextWidth_spec (fun _ => 1) (fun _ _ => 1) (fun _ _ => 0)
    (fun a b => by norm_num) (fun c => by norm_num) (fun a b => by norm_num)
    [65, 10, 66, 67]).1
  refine ⟨h, ?_⟩
  rw [h]
  have hsl : specLines [65, 10, 66, 67] = [[65], [66, 67]] := by
    simp [specLines, utf8Next, SkipColorCodes, ColorCodeIndicator,
      ColorResetIndicator, contByte]
  rw [hsl]
  norm_num [claimLineWidth, pairsSum, maxQ]

lemma heightLoop_spec_aux (ht desc : Nat → ℚ) (lh fd : ℚ) :
    ∀ (len : Nat) (l : List Nat), l.length ≤ len →
    ∀ (h d : ℚ) (ml : Nat),
    (heightLoop ht desc lh fd l h d ml).2.1
      = List.foldl min (if (specLines l).length = 1 then d else lh + fd)
          (((specLines l).getLast?.getD []).map desc)
    ∧ (heightLoop ht desc lh fd l h d ml).2.2 = ml + ((specLines l).length - 1) := by
  intro len
  induction len using Nat.strong_induction_on with
  | _ len ih =>
  intro l hlen h d ml
  rcases l with _ | ⟨b, rest⟩
  · rw [heightLoop.eq_def, specLines.eq_def]
    dsimp only
    simp
  · simp only [List.length_cons] at hlen
    have hkpos := utf8Next_snd_pos (b :: rest)
    rw [heightLoop.eq_def, specLines.eq_def]
    dsimp only
    by_cases hcc : (utf8Next (b :: rest)).1 = ColorCodeIndicator
    · rw [dif_pos hcc, dif_pos hcc]
      have hlt := utf8Next_cci_skip_lt b rest hcc
      exact ih _ (by omega) _ le_rfl h d ml
    · rw [dif_neg hcc, dif_neg hcc]
      have hdlen : ((b :: rest).drop (utf8Next (b :: rest)).2).length ≤ rest.length := by
        simp only [List.length_drop, List.length_cons]; omega
      by_cases h1 : (utf8Next (b :: rest)).1 = ColorResetIndicator
      · rw [if_pos h1, if_pos h1]
        exact ih _ (by omega) _ (le_of_le_of_eq hdlen rfl) h d ml
      · rw [if_neg h1, if_neg h1]
        by_cases h2 : (utf8Next (b :: rest)).1 = 13
        · rw [if_pos h2, if_pos h2]
          set D := (b :: rest).drop (utf8Next (b :: rest)).2 with hD
          set DD := if D.headD 0 = 10 then D.drop 1 else D with hDD
          have hddlen : DD.length ≤ rest.length := by
            rw [hDD]
            split
            · simp only [List.length_drop]; omega
            · exact hdlen
          obtain ⟨L, Ls, hLL⟩ := List.exists_cons_of_ne_nil (specLines_ne_nil DD)
          obtain ⟨ihd, ihm⟩ := ih DD.length (by omega) DD le_rfl h (lh + fd) (ml + 1)
          rw [hLL] at ihd ihm
          refine ⟨?_, ?_⟩
          · rw [ihd, hLL]
            simp only [List.length_cons, List.getLast?_cons_cons, ite_self]
            rw [if_neg (by simp)]
          · rw [ihm, hLL]
            simp only [List.length_cons]
            omega
        · rw [if_neg h2, if_neg h2]
          by_cases h3 : (utf8Next (b :: rest)).1 = 10
          · rw [if_pos h3, if_pos h3]
            set D := (b :: rest).drop (utf8Next (b :: rest)).2 with hD
            obtain ⟨L, Ls, hLL⟩ := List.exists_cons_of_ne_nil (specLines_ne_nil D)
            obtain ⟨ihd, ihm⟩ := ih D.length (by omega) D le_rfl h (lh + fd) (ml + 1)
            rw [hLL] at ihd ihm
            refine ⟨?_, ?_⟩
            · rw [ihd, hLL]
              simp only [List.length_cons, List.getLast?_cons_cons, ite_self]
              rw [if_neg (by simp)]
            · rw [ihm, hLL]
              simp only [List.length_cons]
              omega
          · rw [if_neg h3, if_neg h3]
            set D := (b :: rest).drop (utf8Next (b :: rest)).2 with hD
            obtain ⟨L, Ls, hLL⟩ := List.exists_cons_of_ne_nil (specLines_ne_nil D)
            obtain ⟨ihd, ihm⟩ := ih D.length (by omega) D le_rfl
              (max h (ht (utf8Next (b :: rest)).1 * (if ml < 2 then 1 else 0)))
              (min d (desc (utf8Next (b :: rest)).1)) ml
            rw [hLL] at ihd ihm
            rw [hLL]
            refine ⟨?_, ?_⟩
            · rw [ihd]
              rcases Ls with _ | ⟨L2, Ls2⟩
              · simp only [List.length_cons, List.length_nil, if_pos rfl,
                  List.getLast?_singleton, Option.getD_some, List.map_cons,
                  List.foldl_cons, if_true]
              · simp only [List.length_cons, List.getLast?_cons_cons]
                rw [if_neg (by simp), if_neg (by simp)]
            · rw [ihm]
              simp only [List.length_cons]

/-- C3 as amended: for every non-empty text, the descender returned by
GetTextHeight equals the minimum of the baseline value
(lineHeight + font descender) and the glyph descenders of the LAST line
only (the running minimum is reset at every line break), minus
(lineCount - 1) × lineHeight when the text spans more than one line; the
returned line count is the number of scan lines. -/
theorem getTextHeight_descender_lastline (ht desc : Nat → ℚ) (lh fd : ℚ)
    (text : List Nat) (htext : ¬text = []) :
    (GetTextHeight_ ht desc lh fd text).2.1
      = List.foldl min (lh + fd) (((specLines text).getLast?.getD []).map desc)
        - (((specLines text).length - 1 : ℕ) : ℚ) * lh
          * (if 1 < (specLines text).length then 1 else 0)
    ∧ (GetTextHeight_ ht desc lh fd text).2.2 = (specLines text).length := by
  obtain ⟨ihd, ihm⟩ := heightLoop_spec_aux ht desc lh fd text.length text le_rfl
    0 (lh + fd) 1
  have hlen1 : 1 ≤ (specLines text).length :=
    List.length_pos.mpr (specLines_ne_nil text)
  have hml : (heightLoop ht desc lh fd text 0 (lh + fd) 1).2.2
      = (specLines text).length := by
    rw [ihm]; omega
  have hd : (heightLoop ht desc lh fd text 0 (lh + fd) 1).2.1
      = List.foldl min (lh + fd) (((specLines text).getLast?.getD []).map desc) := by
    rw [ihd, ite_self]
  unfold GetTextHeight_
  rw [if_neg htext]
  constructor
  · dsimp only
    rw [hd, hml]
  · dsimp only
    rw [hml]

/-- C3 counterexample: with unit glyph heights, descender -10 for glyph
103 and 0 otherwise, lineHeight 1 and font descender -1/5, the two-line
text "g\nx" = [103, 10, 120] yields descender -1 from the code (the
running minimum is reset at the line break, so the first line's -10 is
forgotten), while the claim's minimum-over-the-entire-text reading
yields -11. -/
theorem getTextHeight_descender_counterexample :
    (GetTextHeight_ (fun _ => 1) (fun c => if c = 103 then -10 else 0) 1 (-1/5)
        [103, 10, 120]).2.1 = -1
    ∧ claimDescenderC3 (fun c => if c = 103 then -10 else 0) 1 (-1/5)
        [103, 10, 120] = -11
    ∧ ¬(-1 : ℚ) = -11 := by
  have hsl : specLines [103, 10, 120] = [[103], [120]] := by
    simp [specLines, utf8Next, SkipColorCodes, ColorCodeIndicator,
      ColorResetIndicator, contByte]
  refine ⟨?_, ?_, by norm_num⟩
  · simp [GetTextHeight_, heightLoop, utf8Next, SkipColorCodes,
      ColorCodeIndicator, ColorResetIndicator, contByte, min_def, max_def]
    norm_num
  · unfold claimDescenderC3
    rw [hsl]
    norm_num [min_def]

/-- Witness for the amended C3 at the concrete input "g\nx". -/
theorem getTextHeight_descender_lastline_witness :
    ¬([103, 10, 120] : List Nat) = []
    ∧ (GetTextHeight_ (fun _ => 1) (fun c => if c = 103 then -10 else 0) 1 (-1/5)
        [103, 10, 120]).2.1
      = List.foldl min (1 + (-1/5))
          (((specLines [103, 10, 120]).getLast?.getD []).map
            (fun c => if c = 103 then -10 else 0))
        - (((specLines [103, 10, 120]).length - 1 : ℕ) : ℚ) * 1
          * (if 1 < (specLines [103, 10, 120]).length then 1 else 0) :=
  ⟨by decide,
   (getTextHeight_descender_lastline (fun _ => 1)
      (fun c => if c = 103 then -10 else 0) 1 (-1/5) [103, 10, 120]
      (by decide)).1⟩
